import Mathlib

/-!
Verification of the trace-ingestion and concurrency-graph construction
pipeline of the Go visualizer backend (src/backend.go), shallowly embedded
in Lean.  The embedding covers:

* the graph-builder fold of `analyzeTrace` (src/backend.go lines 110-189):
  events are folded into a goroutine map and an edge list;
* the control flow of `traceHandler` (src/backend.go lines 46-106):
  modelled as a pure function of the outcomes of its I/O operations,
  together with the list of operations it performs.
-/

namespace Backend

/-- A decoded trace event, as consumed by the `switch ev.Type` in
`analyzeTrace`.  `goCreate g child` is an `EvGoCreate` event with
`ev.G = g` (the creating goroutine) and `ev.Args[0] = child` (the new
goroutine); `goStart g` / `goEnd g` are `EvGoStart` / `EvGoEnd` with
`ev.G = g`; `other` stands for every event kind the switch ignores. -/
inductive Event where
  | goCreate (g : Nat) (child : Nat)
  | goStart (g : Nat)
  | goEnd (g : Nat)
  | other
deriving DecidableEq, Repr

/-- The `Node` struct of `analyzeTrace` (src/backend.go lines 126-131). -/
structure Node where
  id : Nat
  label : String
  type : String
  state : String
deriving DecidableEq, Repr

/-- The `Edge` struct of `analyzeTrace` (src/backend.go lines 132-135);
the Go fields `From` and `To` are rendered `from_` and `to_` because
`from` and `to` are reserved words here. -/
structure Edge where
  from_ : Nat
  to_ : Nat
deriving DecidableEq, Repr

/-- The `Graph` struct of `analyzeTrace` (src/backend.go lines 136-139). -/
structure Graph where
  nodes : List Node
  edges : List Edge
deriving DecidableEq, Repr

/-- The `goroutines` map (`map[uint64]*Node`), represented as an
association list whose entry order is insertion order. -/
abbrev GoMap := List (Nat × Node)

/-- Go map lookup `goroutines[k]`. -/
def lookupG : GoMap → Nat → Option Node
  | [], _ => none
  | (k, n) :: rest, g => if k = g then some n else lookupG rest g

/-- Go map insertion `goroutines[k] = n` for a key not yet present
(the code only inserts after a failed lookup). -/
def insertNew (m : GoMap) (k : Nat) (n : Node) : GoMap :=
  m ++ [(k, n)]

/-- The in-place update `g.State = s` performed through the `*Node`
pointer stored in the map: the entry whose key matches gets its state
replaced, every other entry is unchanged. -/
def setState : GoMap → Nat → String → GoMap
  | [], _, _ => []
  | (k, n) :: rest, g, s =>
      if k = g then (k, { n with state := s }) :: setState rest g s
      else (k, n) :: setState rest g s

/-- The node literal `&Node{ID: id, Label: fmt.Sprintf("goroutine %d", id),
Type: "goroutine", State: "created"}` (src/backend.go lines 158 and 161). -/
def newNode (id : Nat) : Node :=
  ⟨id, "goroutine " ++ toString id, "goroutine", "created"⟩

/-- The seeded root node `&Node{ID: 1, Label: "goroutine 1 (main)",
Type: "goroutine", State: "running"}` (src/backend.go line 149). -/
def rootNode : Node :=
  ⟨1, "goroutine 1 (main)", "goroutine", "running"⟩

/-- One iteration of the `for _, ev := range result.Events` loop
(src/backend.go lines 151-176), acting on the accumulator
(goroutine map, edge list). -/
def stepEvent (acc : GoMap × List Edge) (ev : Event) : GoMap × List Edge :=
  match ev with
  | .goCreate parentID childID =>
      let m1 := if (lookupG acc.1 parentID).isSome then acc.1
                else insertNew acc.1 parentID (newNode parentID)
      let m2 := if (lookupG m1 childID).isSome then m1
                else insertNew m1 childID (newNode childID)
      (m2, acc.2 ++ [⟨parentID, childID⟩])
  | .goStart g =>
      (if (lookupG acc.1 g).isSome then setState acc.1 g "running" else acc.1,
       acc.2)
  | .goEnd g =>
      (if (lookupG acc.1 g).isSome then setState acc.1 g "finished" else acc.1,
       acc.2)
  | .other => acc

/-- The accumulator before the event loop: the map holding only the seeded
root node, and the empty edge list (src/backend.go lines 141-149). -/
def initAcc : GoMap × List Edge :=
  ([(1, rootNode)], [])

/-- The full event loop of `analyzeTrace`: fold `stepEvent` over the
decoded event sequence starting from `initAcc`. -/
def buildAcc (evs : List Event) : GoMap × List Edge :=
  evs.foldl stepEvent initAcc

/-- The graph `analyzeTrace` returns for a decoded event sequence: the
final map's nodes (here in insertion order; Go map iteration order is
unspecified, see `IsGraphOutput`) and the accumulated edge list
(src/backend.go lines 178-188). -/
def analyzeEvents (evs : List Event) : Graph :=
  ⟨(buildAcc evs).1.map Prod.snd, (buildAcc evs).2⟩

/-- Since `for _, node := range goroutines` (src/backend.go line 179)
iterates the map in unspecified order, a graph is a possible output of
`analyzeTrace` on `evs` iff its node list is some permutation of the final
map's nodes and its edge list is exactly the accumulated edge list. -/
def IsGraphOutput (evs : List Event) (g : Graph) : Prop :=
  g.nodes.Perm ((buildAcc evs).1.map Prod.snd) ∧ g.edges = (buildAcc evs).2

/-!
## Handler model

`traceHandler` (src/backend.go lines 46-106) is a sequence of fallible I/O
operations with early returns.  We model the outcome of each operation as a
field of a `World`, and the handler as a pure function of the world that
returns the response it writes together with the ordered list of
operations it actually performed.
-/

/-- Outcomes of the I/O operations `traceHandler` and `analyzeTrace` may
perform, in one request. -/
structure World where
  /-- `ioutil.ReadAll(r.Body)` (line 47): the posted source bytes, or an
  error. -/
  readBody : Except String String
  /-- `ioutil.TempDir("", "gtrace")` (line 53): the fresh directory name,
  or an error.  Note the code discards the error (`dir, _ :=`); on error
  Go leaves `dir` as the empty string. -/
  tempDir : Except String String
  /-- Whether `ioutil.WriteFile(tmpFile, code, 0644)` (line 56) succeeds. -/
  writeFileOk : Bool
  /-- `cmd.CombinedOutput()` (line 67): the combined output; the returned
  error is discarded by the code. -/
  runOutput : String
  /-- Whether `ctx.Err() == context.DeadlineExceeded` (line 70): the
  subprocess exceeded the 5 second deadline and was killed. -/
  timedOut : Bool
  /-- Whether `os.Stat(tracePath)` (line 81) finds `trace.out`. -/
  traceExists : Bool
  /-- `os.Open(tracePath)` inside `analyzeTrace` (line 112): ok or error. -/
  openTrace : Except String Unit
  /-- `trace.Parse(f, "")` inside `analyzeTrace` (line 119): the decoded
  event sequence, or a decode error. -/
  parseResult : Except String (List Event)

/-- The operations the handler can perform; `writeFile` and `runCmd`
record the directory they act in (`tmpFile` lives in `dir`, and
`cmd.Dir = dir`). -/
inductive Effect where
  | readBody
  | tempDir
  | writeFile (dir : String)
  | runCmd (dir : String)
  | statTrace
  | openTrace
  | parseTrace
deriving DecidableEq, Repr

/-- The responses `traceHandler` can write, one per `return` path. -/
inductive Response where
  /-- `http.Error(w, "Failed to read code", 400)` (line 49). -/
  | readError
  /-- `http.Error(w, "Failed to write temp file", 500)` (line 57). -/
  | writeError
  /-- the `"Execution timed out after 5 seconds."` payload (lines 71-77). -/
  | timeout
  /-- the `"trace.out not generated"` payload with the captured
  `go_run_output` (lines 82-89). -/
  | traceMissing (output : String)
  /-- the `"Failed to analyze trace.out"` payload (lines 95-101). -/
  | analyzeFailed (msg : String)
  /-- the success payload wrapping the graph (lines 104-105). -/
  | success (g : Graph)
deriving DecidableEq, Repr

/-- `analyzeTrace` (src/backend.go lines 110-189) as a function of the
world: open the artifact, parse it, fold the events; returns the result
and the operations performed. -/
def analyzeTraceRun (w : World) : Except String Graph × List Effect :=
  match w.openTrace with
  | .error e => (.error ("could not open trace file: " ++ e), [.openTrace])
  | .ok _ =>
      match w.parseResult with
      | .error e =>
          (.error ("failed to parse trace data: " ++ e),
           [.openTrace, .parseTrace])
      | .ok evs => (.ok (analyzeEvents evs), [.openTrace, .parseTrace])

/-- `traceHandler` (src/backend.go lines 46-106) as a function of the
world: the response written and the ordered operations performed.  The
early-return structure mirrors the code; in particular the deadline check
(line 70) precedes the `os.Stat` artifact check (line 81), and the
`ioutil.TempDir` error is discarded (line 53), so on allocation failure
the handler continues with `dir = ""`. -/
def traceHandlerRun (w : World) : Response × List Effect :=
  match w.readBody with
  | .error _ => (.readError, [.readBody])
  | .ok _code =>
      let dir := match w.tempDir with
                 | .ok d => d
                 | .error _ => ""
      if w.writeFileOk = false then
        (.writeError, [.readBody, .tempDir, .writeFile dir])
      else if w.timedOut then
        (.timeout, [.readBody, .tempDir, .writeFile dir, .runCmd dir])
      else if w.traceExists = false then
        (.traceMissing w.runOutput,
         [.readBody, .tempDir, .writeFile dir, .runCmd dir, .statTrace])
      else
        match analyzeTraceRun w with
        | (.error e, effs) =>
            (.analyzeFailed e,
             [.readBody, .tempDir, .writeFile dir, .runCmd dir, .statTrace]
               ++ effs)
        | (.ok g, effs) =>
            (.success g,
             [.readBody, .tempDir, .writeFile dir, .runCmd dir, .statTrace]
               ++ effs)

/-!
## Property-side definitions

Decidable predicates over event sequences used to state the claims.
-/

/-- Is `ev` a `goCreate` event (of any goroutine pair)? -/
def isCreate : Event → Bool
  | .goCreate _ _ => true
  | _ => false

/-- Is `ev` a `goStart` event of goroutine `g`? -/
def isStartOf (g : Nat) : Event → Bool
  | .goStart h => h == g
  | _ => false

/-- Is `ev` a `goEnd` event of goroutine `g`? -/
def isEndOf (g : Nat) : Event → Bool
  | .goEnd h => h == g
  | _ => false

/-- Does `ev` name `g` in a create event, as creator or as new task? -/
def mentionsCreate (g : Nat) : Event → Bool
  | .goCreate a b => a == g || b == g
  | _ => false

/-- Some `goStart g` occurs in `evs`. -/
def hasStart (g : Nat) (evs : List Event) : Bool :=
  evs.any (isStartOf g)

/-- Some `goEnd g` occurs in `evs`. -/
def hasEnd (g : Nat) (evs : List Event) : Bool :=
  evs.any (isEndOf g)

/-- The lifecycle phase of one task id while scanning an event sequence:
not yet created, created, started, ended. -/
inductive Phase where
  | P0
  | P1
  | P2
  | P3
deriving DecidableEq, Repr

/-- Phase transition of task `g` on one event: lifecycle events of `g`
must arrive in order create, then start, then end (each at most once);
`none` marks an ill-formed sequence for `g`.  Events not concerning `g`
(including creates where `g` is only the creator) leave the phase
unchanged. -/
def phaseStep (g : Nat) (p : Phase) (ev : Event) : Option Phase :=
  match ev with
  | .goCreate _ b =>
      if b = g then (match p with | .P0 => some .P1 | _ => none) else some p
  | .goStart h =>
      if h = g then (match p with | .P1 => some .P2 | _ => none) else some p
  | .goEnd h =>
      if h = g then (match p with | .P2 => some .P3 | _ => none) else some p
  | .other => some p

/-- Run the lifecycle automaton of task `g` from phase `p` over `evs`. -/
def wfAux (g : Nat) (p : Phase) : List Event → Bool
  | [] => true
  | ev :: rest =>
      match phaseStep g p ev with
      | some p2 => wfAux g p2 rest
      | none => false

/-- `evs` is well-formed for task id `g`: the lifecycle events of `g`
occurring in `evs` form a prefix of create, start, end, in this order
(so its start, if present, occurs after its create, and its end, if
present, occurs after its start). -/
def wellFormedFor (g : Nat) (evs : List Event) : Bool :=
  wfAux g .P0 evs

/-- The state recorded for task `g` in a goroutine map, if a node
exists. -/
def statusOf (m : GoMap) (g : Nat) : Option String :=
  (lookupG m g).map Node.state

/-!
## Basic lemmas about the goroutine map
-/

theorem lookupG_insertNew_ne (m : GoMap) (k : Nat) (n : Node) (g : Nat)
    (h : k ≠ g) : lookupG (insertNew m k n) g = lookupG m g := by
  induction m with
  | nil => simp [insertNew, lookupG, h]
  | cons p rest ih =>
      simp only [insertNew, List.cons_append, lookupG] at *
      by_cases hp : p.1 = g
      · simp [hp]
      · simp [hp, ih]

theorem lookupG_insertNew_self (m : GoMap) (k : Nat) (n : Node)
    (h : lookupG m k = none) : lookupG (insertNew m k n) k = some n := by
  induction m with
  | nil => simp [insertNew, lookupG]
  | cons p rest ih =>
      simp only [insertNew, List.cons_append, lookupG] at *
      by_cases hp : p.1 = k
      · simp [hp] at h
      · simp [hp] at h ⊢
        exact ih h

theorem lookupG_setState_ne (m : GoMap) (k : Nat) (s : String) (g : Nat)
    (h : k ≠ g) : lookupG (setState m k s) g = lookupG m g := by
  induction m with
  | nil => simp [setState, lookupG]
  | cons p rest ih =>
      obtain ⟨a, b⟩ := p
      by_cases hp : a = k
      · have hg : ¬ a = g := fun hc => h (hp ▸ hc ▸ rfl)
        simp [setState, lookupG, hp, hg, h, ih]
      · by_cases hg : a = g
        · simp [setState, lookupG, hp, hg, Ne.symm h]
        · simp [setState, lookupG, hp, hg, ih]

theorem lookupG_setState_self (m : GoMap) (k : Nat) (s : String) :
    lookupG (setState m k s) k =
      (lookupG m k).map (fun n => { n with state := s }) := by
  induction m with
  | nil => simp [setState, lookupG]
  | cons p rest ih =>
      obtain ⟨a, b⟩ := p
      by_cases hp : a = k
      · simp [setState, lookupG, hp]
      · simp [setState, lookupG, hp, ih]

theorem lookupG_insertNew_of_some (m : GoMap) (k : Nat) (n : Node) (g : Nat)
    (x : Node) (h : lookupG m g = some x) :
    lookupG (insertNew m k n) g = some x := by
  induction m with
  | nil => simp [lookupG] at h
  | cons p rest ih =>
      obtain ⟨a, b⟩ := p
      by_cases hp : a = g
      · simp [lookupG, hp] at h
        simp [insertNew, lookupG, hp, h]
      · simp [lookupG, hp] at h
        simp only [insertNew, List.cons_append, lookupG, if_neg hp]
        exact ih h

theorem lookupG_isSome_insertNew (m : GoMap) (k : Nat) (n : Node) (g : Nat)
    (h : (lookupG m g).isSome = true) :
    (lookupG (insertNew m k n) g).isSome = true := by
  cases hm : lookupG m g with
  | none => simp [hm] at h
  | some x => simp [lookupG_insertNew_of_some m k n g x hm]

theorem lookupG_isSome_setState (m : GoMap) (k : Nat) (s : String) (g : Nat) :
    (lookupG (setState m k s) g).isSome = (lookupG m g).isSome := by
  by_cases hk : k = g
  · subst hk
    rw [lookupG_setState_self]
    cases lookupG m k <;> simp
  · rw [lookupG_setState_ne m k s g hk]

/-!
## Behaviour of a single fold step
-/

/-- The edge a single event contributes, if any. -/
def edgeOf : Event → Option Edge
  | .goCreate a b => some ⟨a, b⟩
  | _ => none

theorem step_create_map (m : GoMap) (es : List Edge) (a b : Nat) :
    (stepEvent (m, es) (.goCreate a b)).1 =
      if (lookupG (if (lookupG m a).isSome = true then m
                   else insertNew m a (newNode a)) b).isSome = true
      then (if (lookupG m a).isSome = true then m else insertNew m a (newNode a))
      else insertNew (if (lookupG m a).isSome = true then m
                      else insertNew m a (newNode a)) b (newNode b) := rfl

theorem step_start_map (m : GoMap) (es : List Edge) (x : Nat) :
    (stepEvent (m, es) (.goStart x)).1 =
      if (lookupG m x).isSome = true then setState m x "running" else m := rfl

theorem step_end_map (m : GoMap) (es : List Edge) (x : Nat) :
    (stepEvent (m, es) (.goEnd x)).1 =
      if (lookupG m x).isSome = true then setState m x "finished" else m := rfl

theorem lookupG_step_create_ne (m : GoMap) (es : List Edge) (a b g : Nat)
    (ha : a ≠ g) (hb : b ≠ g) :
    lookupG (stepEvent (m, es) (.goCreate a b)).1 g = lookupG m g := by
  rw [step_create_map]
  by_cases hla : (lookupG m a).isSome = true
  · rw [if_pos hla]
    by_cases hlb : (lookupG m b).isSome = true
    · rw [if_pos hlb]
    · rw [if_neg hlb, lookupG_insertNew_ne m b (newNode b) g hb]
  · rw [if_neg hla]
    by_cases hlb : (lookupG (insertNew m a (newNode a)) b).isSome = true
    · rw [if_pos hlb, lookupG_insertNew_ne m a (newNode a) g ha]
    · rw [if_neg hlb, lookupG_insertNew_ne _ b (newNode b) g hb,
        lookupG_insertNew_ne m a (newNode a) g ha]

theorem statusOf_step_create (m : GoMap) (es : List Edge) (a b g : Nat)
    (h : a = g ∨ b = g) :
    statusOf (stepEvent (m, es) (.goCreate a b)).1 g =
      some ((statusOf m g).getD "created") := by
  rw [step_create_map]
  by_cases hag : a = g
  · subst hag
    by_cases hla : (lookupG m a).isSome = true
    · rw [if_pos hla]
      cases hm : lookupG m a with
      | none => rw [hm] at hla; simp at hla
      | some x =>
          by_cases hlb : (lookupG m b).isSome = true
          · rw [if_pos hlb]
            simp [statusOf, hm]
          · rw [if_neg hlb]
            have hbg : b ≠ a := by
              intro hc
              rw [hc, hm] at hlb
              simp at hlb
            simp [statusOf, lookupG_insertNew_ne m b (newNode b) a hbg, hm]
    · rw [if_neg hla]
      have hma : lookupG m a = none := Option.not_isSome_iff_eq_none.mp hla
      have h1 : lookupG (insertNew m a (newNode a)) a = some (newNode a) :=
        lookupG_insertNew_self m a (newNode a) hma
      by_cases hlb : (lookupG (insertNew m a (newNode a)) b).isSome = true
      · rw [if_pos hlb]
        simp only [statusOf]
        rw [h1, hma]
        rfl
      · rw [if_neg hlb]
        have hbg : b ≠ a := by
          intro hc
          rw [hc, h1] at hlb
          simp at hlb
        simp only [statusOf]
        rw [lookupG_insertNew_ne _ b (newNode b) a hbg, h1, hma]
        rfl
  · have hbg : b = g := h.resolve_left hag
    subst hbg
    by_cases hla : (lookupG m a).isSome = true
    · rw [if_pos hla]
      by_cases hlb : (lookupG m b).isSome = true
      · rw [if_pos hlb]
        cases hm : lookupG m b with
        | none => rw [hm] at hlb; simp at hlb
        | some x => simp [statusOf, hm]
      · rw [if_neg hlb]
        have hmb : lookupG m b = none := Option.not_isSome_iff_eq_none.mp hlb
        simp only [statusOf]
        rw [lookupG_insertNew_self m b (newNode b) hmb, hmb]
        rfl
    · rw [if_neg hla]
      have e1 : lookupG (insertNew m a (newNode a)) b = lookupG m b :=
        lookupG_insertNew_ne m a (newNode a) b hag
      by_cases hlb : (lookupG (insertNew m a (newNode a)) b).isSome = true
      · rw [if_pos hlb]
        rw [e1] at hlb
        cases hm : lookupG m b with
        | none => rw [hm] at hlb; simp at hlb
        | some x => simp [statusOf, e1, hm]
      · rw [if_neg hlb]
        rw [e1] at hlb
        have hmb : lookupG m b = none := Option.not_isSome_iff_eq_none.mp hlb
        have h2 : lookupG (insertNew (insertNew m a (newNode a)) b (newNode b)) b
            = some (newNode b) :=
          lookupG_insertNew_self _ b (newNode b) (by rw [e1]; exact hmb)
        simp only [statusOf]
        rw [h2, hmb]
        rfl

theorem lookupG_step_start_ne (m : GoMap) (es : List Edge) (h g : Nat)
    (hne : h ≠ g) :
    lookupG (stepEvent (m, es) (.goStart h)).1 g = lookupG m g := by
  rw [step_start_map]
  by_cases hl : (lookupG m h).isSome = true
  · rw [if_pos hl, lookupG_setState_ne m h "running" g hne]
  · rw [if_neg hl]

theorem statusOf_step_start_self (m : GoMap) (es : List Edge) (g : Nat)
    (hl : (lookupG m g).isSome = true) :
    statusOf (stepEvent (m, es) (.goStart g)).1 g = some "running" := by
  rw [step_start_map, if_pos hl]
  cases hm : lookupG m g with
  | none => rw [hm] at hl; simp at hl
  | some x => simp [statusOf, lookupG_setState_self, hm]

theorem lookupG_step_end_ne (m : GoMap) (es : List Edge) (h g : Nat)
    (hne : h ≠ g) :
    lookupG (stepEvent (m, es) (.goEnd h)).1 g = lookupG m g := by
  rw [step_end_map]
  by_cases hl : (lookupG m h).isSome = true
  · rw [if_pos hl, lookupG_setState_ne m h "finished" g hne]
  · rw [if_neg hl]

theorem statusOf_step_end_self (m : GoMap) (es : List Edge) (g : Nat)
    (hl : (lookupG m g).isSome = true) :
    statusOf (stepEvent (m, es) (.goEnd g)).1 g = some "finished" := by
  rw [step_end_map, if_pos hl]
  cases hm : lookupG m g with
  | none => rw [hm] at hl; simp at hl
  | some x => simp [statusOf, lookupG_setState_self, hm]

theorem lookupG_isSome_step (m : GoMap) (es : List Edge) (ev : Event) (g : Nat)
    (h : (lookupG m g).isSome = true) :
    (lookupG (stepEvent (m, es) ev).1 g).isSome = true := by
  cases ev with
  | goCreate a b =>
      rw [step_create_map]
      by_cases hla : (lookupG m a).isSome = true
      · rw [if_pos hla]
        by_cases hlb : (lookupG m b).isSome = true
        · rw [if_pos hlb]; exact h
        · rw [if_neg hlb]
          exact lookupG_isSome_insertNew m b (newNode b) g h
      · rw [if_neg hla]
        by_cases hlb : (lookupG (insertNew m a (newNode a)) b).isSome = true
        · rw [if_pos hlb]
          exact lookupG_isSome_insertNew m a (newNode a) g h
        · rw [if_neg hlb]
          exact lookupG_isSome_insertNew _ b (newNode b) g
            (lookupG_isSome_insertNew m a (newNode a) g h)
  | goStart x =>
      rw [step_start_map]
      by_cases hl : (lookupG m x).isSome = true
      · rw [if_pos hl, lookupG_isSome_setState]; exact h
      · rw [if_neg hl]; exact h
  | goEnd x =>
      rw [step_end_map]
      by_cases hl : (lookupG m x).isSome = true
      · rw [if_pos hl, lookupG_isSome_setState]; exact h
      · rw [if_neg hl]; exact h
  | other => exact h

theorem step_edges (m : GoMap) (es : List Edge) (ev : Event) :
    (stepEvent (m, es) ev).2 = es ++ (edgeOf ev).toList := by
  cases ev with
  | goCreate a b => simp [stepEvent, edgeOf]
  | goStart x => simp [stepEvent, edgeOf]
  | goEnd x => simp [stepEvent, edgeOf]
  | other => simp [stepEvent, edgeOf]

/-!
## Fold-level lemmas and map invariants
-/

theorem fold_edges (evs : List Event) :
    ∀ (m : GoMap) (es : List Edge),
      (List.foldl stepEvent (m, es) evs).2 = es ++ evs.filterMap edgeOf := by
  induction evs with
  | nil => intro m es; simp
  | cons ev rest ih =>
      intro m es
      have hstep : List.foldl stepEvent (m, es) (ev :: rest)
          = List.foldl stepEvent (stepEvent (m, es) ev) rest := rfl
      rw [hstep]
      have hpair : stepEvent (m, es) ev
          = ((stepEvent (m, es) ev).1, es ++ (edgeOf ev).toList) := by
        rw [← step_edges m es ev]
      rw [hpair, ih]
      cases ev <;> simp [edgeOf]

theorem fold_lookupG_isSome (evs : List Event) :
    ∀ (m : GoMap) (es : List Edge) (g : Nat),
      (lookupG m g).isSome = true →
      (lookupG (List.foldl stepEvent (m, es) evs).1 g).isSome = true := by
  induction evs with
  | nil => intro m es g h; exact h
  | cons ev rest ih =>
      intro m es g h
      have hstep : List.foldl stepEvent (m, es) (ev :: rest)
          = List.foldl stepEvent (stepEvent (m, es) ev) rest := rfl
      rw [hstep]
      have h1 := lookupG_isSome_step m es ev g h
      have hpair : stepEvent (m, es) ev
          = ((stepEvent (m, es) ev).1, (stepEvent (m, es) ev).2) := rfl
      rw [hpair]
      exact ih _ _ g h1

/-- Invariant of the goroutine map: every entry's node carries its key as
id, and keys are pairwise distinct. -/
def MapInv (m : GoMap) : Prop :=
  (∀ p ∈ m, (Prod.snd p).id = Prod.fst p) ∧ (m.map Prod.fst).Nodup

theorem mem_keys_of_lookupG_isSome (m : GoMap) (g : Nat)
    (h : (lookupG m g).isSome = true) : g ∈ m.map Prod.fst := by
  induction m with
  | nil => simp [lookupG] at h
  | cons p rest ih =>
      obtain ⟨a, b⟩ := p
      by_cases hp : a = g
      · simp [hp]
      · simp only [lookupG, if_neg hp] at h
        simp [ih h]

theorem lookupG_none_of_not_mem_keys (m : GoMap) (g : Nat)
    (h : g ∉ m.map Prod.fst) : lookupG m g = none := by
  induction m with
  | nil => rfl
  | cons p rest ih =>
      obtain ⟨a, b⟩ := p
      simp only [List.map_cons, List.mem_cons] at h
      push_neg at h
      have ha : ¬ a = g := fun hc => h.1 hc.symm
      simp only [lookupG, if_neg ha]
      exact ih h.2

theorem keys_setState (m : GoMap) (k : Nat) (s : String) :
    (setState m k s).map Prod.fst = m.map Prod.fst := by
  induction m with
  | nil => rfl
  | cons p rest ih =>
      obtain ⟨a, b⟩ := p
      by_cases hp : a = k
      · simp [setState, hp, ih]
      · simp [setState, hp, ih]

theorem lookupG_isSome_of_mem_keys (m : GoMap) (g : Nat)
    (h : g ∈ m.map Prod.fst) : (lookupG m g).isSome = true := by
  induction m with
  | nil => simp at h
  | cons p rest ih =>
      obtain ⟨a, b⟩ := p
      by_cases hp : a = g
      · simp [lookupG, hp]
      · simp only [List.map_cons, List.mem_cons] at h
        rcases h with h | h
        · exact absurd h.symm hp
        · simp only [lookupG, if_neg hp]
          exact ih h

theorem mapInv_insertNew (m : GoMap) (k : Nat) (n : Node)
    (hinv : MapInv m) (hid : n.id = k) (habs : lookupG m k = none) :
    MapInv (insertNew m k n) := by
  obtain ⟨hids, hnd⟩ := hinv
  constructor
  · intro p hp
    rw [insertNew, List.mem_append] at hp
    rcases hp with hp | hp
    · exact hids p hp
    · simp at hp
      rw [hp]
      exact hid
  · rw [insertNew, List.map_append]
    rw [List.nodup_append]
    refine ⟨hnd, List.nodup_singleton k, ?_⟩
    intro x hx hxk
    simp only [List.map_cons, List.map_nil, List.mem_singleton] at hxk
    subst hxk
    have h2 := lookupG_isSome_of_mem_keys m x hx
    rw [habs] at h2
    cases h2

theorem ids_setState (m : GoMap) (k : Nat) (s : String)
    (h : ∀ p ∈ m, (Prod.snd p).id = Prod.fst p) :
    ∀ p ∈ setState m k s, (Prod.snd p).id = Prod.fst p := by
  induction m with
  | nil => intro p hp; simp [setState] at hp
  | cons q rest ih =>
      obtain ⟨a, b⟩ := q
      intro p hp
      have hrest : ∀ r ∈ rest, (Prod.snd r).id = Prod.fst r :=
        fun r hr => h r (List.mem_cons_of_mem _ hr)
      by_cases hq : a = k
      · simp only [setState, if_pos hq, List.mem_cons] at hp
        rcases hp with hp | hp
        · rw [hp]
          exact h (a, b) (List.mem_cons_self _ _)
        · exact ih hrest p hp
      · simp only [setState, if_neg hq, List.mem_cons] at hp
        rcases hp with hp | hp
        · rw [hp]
          exact h (a, b) (List.mem_cons_self _ _)
        · exact ih hrest p hp

theorem mapInv_setState (m : GoMap) (k : Nat) (s : String)
    (hinv : MapInv m) : MapInv (setState m k s) := by
  obtain ⟨hids, hnd⟩ := hinv
  exact ⟨ids_setState m k s hids, by rw [keys_setState]; exact hnd⟩

theorem mapInv_step (m : GoMap) (es : List Edge) (ev : Event)
    (hinv : MapInv m) : MapInv (stepEvent (m, es) ev).1 := by
  cases ev with
  | goCreate a b =>
      rw [step_create_map]
      by_cases hla : (lookupG m a).isSome = true
      · rw [if_pos hla]
        by_cases hlb : (lookupG m b).isSome = true
        · rw [if_pos hlb]; exact hinv
        · rw [if_neg hlb]
          exact mapInv_insertNew m b (newNode b) hinv rfl
            (Option.not_isSome_iff_eq_none.mp hlb)
      · rw [if_neg hla]
        have h1 : MapInv (insertNew m a (newNode a)) :=
          mapInv_insertNew m a (newNode a) hinv rfl
            (Option.not_isSome_iff_eq_none.mp hla)
        by_cases hlb : (lookupG (insertNew m a (newNode a)) b).isSome = true
        · rw [if_pos hlb]; exact h1
        · rw [if_neg hlb]
          exact mapInv_insertNew _ b (newNode b) h1 rfl
            (Option.not_isSome_iff_eq_none.mp hlb)
  | goStart x =>
      rw [step_start_map]
      by_cases hl : (lookupG m x).isSome = true
      · rw [if_pos hl]; exact mapInv_setState m x "running" hinv
      · rw [if_neg hl]; exact hinv
  | goEnd x =>
      rw [step_end_map]
      by_cases hl : (lookupG m x).isSome = true
      · rw [if_pos hl]; exact mapInv_setState m x "finished" hinv
      · rw [if_neg hl]; exact hinv
  | other => exact hinv

theorem mapInv_fold (evs : List Event) :
    ∀ (m : GoMap) (es : List Edge), MapInv m →
      MapInv (List.foldl stepEvent (m, es) evs).1 := by
  induction evs with
  | nil => intro m es h; exact h
  | cons ev rest ih =>
      intro m es h
      have hstep : List.foldl stepEvent (m, es) (ev :: rest)
          = List.foldl stepEvent
              ((stepEvent (m, es) ev).1, (stepEvent (m, es) ev).2) rest := rfl
      rw [hstep]
      exact ih _ _ (mapInv_step m es ev h)

theorem mapInv_initAcc : MapInv initAcc.1 := by
  constructor
  · intro p hp
    simp only [initAcc, List.mem_singleton] at hp
    rw [hp]
    rfl
  · simp [initAcc]

theorem mapInv_buildAcc (evs : List Event) : MapInv (buildAcc evs).1 := by
  have h : buildAcc evs = List.foldl stepEvent (initAcc.1, initAcc.2) evs := rfl
  rw [h]
  exact mapInv_fold evs initAcc.1 initAcc.2 mapInv_initAcc

theorem mem_snd_of_lookupG (m : GoMap) (g : Nat) (n : Node)
    (h : lookupG m g = some n) : n ∈ m.map Prod.snd := by
  induction m with
  | nil => simp [lookupG] at h
  | cons p rest ih =>
      obtain ⟨a, b⟩ := p
      by_cases hp : a = g
      · simp only [lookupG, if_pos hp] at h
        injection h with h
        simp [h]
      · simp only [lookupG, if_neg hp] at h
        simp [ih h]

theorem id_of_lookupG (m : GoMap) (g : Nat) (n : Node)
    (hids : ∀ p ∈ m, (Prod.snd p).id = Prod.fst p)
    (h : lookupG m g = some n) : n.id = g := by
  induction m with
  | nil => simp [lookupG] at h
  | cons p rest ih =>
      obtain ⟨a, b⟩ := p
      by_cases hp : a = g
      · simp only [lookupG, if_pos hp] at h
        injection h with h
        rw [← h, ← hp]
        exact hids (a, b) (List.mem_cons_self _ _)
      · simp only [lookupG, if_neg hp] at h
        exact ih (fun r hr => hids r (List.mem_cons_of_mem _ hr)) h

theorem lookupG_of_mem_snd (m : GoMap) (n : Node)
    (hinv : MapInv m) (h : n ∈ m.map Prod.snd) : lookupG m n.id = some n := by
  induction m with
  | nil => simp at h
  | cons p rest ih =>
      obtain ⟨a, b⟩ := p
      obtain ⟨hids, hnd⟩ := hinv
      simp only [List.map_cons, List.mem_cons] at h
      have hba : b.id = a := hids (a, b) (List.mem_cons_self _ _)
      rcases h with h | h
      · subst h
        simp [lookupG, hba]
      · have hnd' : a ∉ rest.map Prod.fst ∧ (rest.map Prod.fst).Nodup := by
          rw [List.map_cons] at hnd
          exact List.nodup_cons.mp hnd
        have hinv2 : MapInv rest :=
          ⟨fun r hr => hids r (List.mem_cons_of_mem _ hr), hnd'.2⟩
        have hrest := ih hinv2 h
        have hmem : n.id ∈ rest.map Prod.fst :=
          mem_keys_of_lookupG_isSome rest n.id (by simp [hrest])
        have hne : ¬ a = n.id := by
          intro hc
          rw [hc] at hnd'
          exact hnd'.1 hmem
        simp only [lookupG, if_neg hne]
        exact hrest

theorem step_keys_origin (m : GoMap) (es : List Edge) (ev : Event) (g : Nat)
    (h : g ∈ (stepEvent (m, es) ev).1.map Prod.fst) :
    g ∈ m.map Prod.fst ∨ mentionsCreate g ev = true := by
  cases ev with
  | goCreate a b =>
      have hsub : (stepEvent (m, es) (.goCreate a b)).1.map Prod.fst
          ⊆ (m.map Prod.fst) ++ [a] ++ [b] := by
        rw [step_create_map]
        by_cases hla : (lookupG m a).isSome = true
        · rw [if_pos hla]
          by_cases hlb : (lookupG m b).isSome = true
          · rw [if_pos hlb]
            intro x hx
            simp [hx]
          · rw [if_neg hlb]
            intro x hx
            simp only [insertNew, List.map_append] at hx
            rcases List.mem_append.mp hx with hx | hx
            · simp [hx]
            · simp at hx
              simp [hx]
        · rw [if_neg hla]
          by_cases hlb : (lookupG (insertNew m a (newNode a)) b).isSome = true
          · rw [if_pos hlb]
            intro x hx
            simp only [insertNew, List.map_append] at hx
            rcases List.mem_append.mp hx with hx | hx
            · simp [hx]
            · simp at hx
              simp [hx]
          · rw [if_neg hlb]
            intro x hx
            simp only [insertNew, List.map_append] at hx
            rcases List.mem_append.mp hx with hx | hx
            · rcases List.mem_append.mp hx with hx | hx
              · simp [hx]
              · simp at hx
                simp [hx]
            · simp at hx
              simp [hx]
      have h2 := hsub h
      rcases List.mem_append.mp h2 with h2 | h2
      · rcases List.mem_append.mp h2 with h2 | h2
        · exact Or.inl h2
        · simp at h2
          right
          simp [mentionsCreate, h2]
      · simp at h2
        right
        simp [mentionsCreate, h2]
  | goStart x =>
      left
      rw [step_start_map] at h
      by_cases hl : (lookupG m x).isSome = true
      · rw [if_pos hl, keys_setState] at h; exact h
      · rw [if_neg hl] at h; exact h
  | goEnd x =>
      left
      rw [step_end_map] at h
      by_cases hl : (lookupG m x).isSome = true
      · rw [if_pos hl, keys_setState] at h; exact h
      · rw [if_neg hl] at h; exact h
  | other => exact Or.inl h

theorem fold_keys_origin (evs : List Event) :
    ∀ (m : GoMap) (es : List Edge) (g : Nat),
      g ∈ (List.foldl stepEvent (m, es) evs).1.map Prod.fst →
      g ∈ m.map Prod.fst ∨ evs.any (mentionsCreate g) = true := by
  induction evs with
  | nil => intro m es g h; exact Or.inl h
  | cons ev rest ih =>
      intro m es g h
      have hstep : List.foldl stepEvent (m, es) (ev :: rest)
          = List.foldl stepEvent
              ((stepEvent (m, es) ev).1, (stepEvent (m, es) ev).2) rest := rfl
      rw [hstep] at h
      rcases ih _ _ g h with h2 | h2
      · rcases step_keys_origin m es ev g h2 with h3 | h3
        · exact Or.inl h3
        · right
          simp [List.any_cons, h3]
      · right
        simp [List.any_cons, h2]

/-!
## Final state of a task under well-formed input
-/

/-- The final state the specification predicts for task `g` after folding
`evs` over a map in which `g` currently has status `s0`: finished if an
end event occurs, else running if a start event occurs, else the current
status, a fresh node in state created being seeded if `g` is named by any
create event. -/
def finalStateTarget (g : Nat) (evs : List Event) (s0 : Option String) :
    Option String :=
  if hasEnd g evs then some "finished"
  else if hasStart g evs then some "running"
  else
    match s0 with
    | some s => some s
    | none => if evs.any (mentionsCreate g) then some "created" else none

theorem wfAux_P3_no_lifecycle (g : Nat) :
    ∀ evs, wfAux g .P3 evs = true →
      hasStart g evs = false ∧ hasEnd g evs = false := by
  intro evs
  induction evs with
  | nil => intro _; exact ⟨rfl, rfl⟩
  | cons ev rest ih =>
      intro hwf
      simp only [wfAux] at hwf
      cases ev with
      | goCreate a b =>
          by_cases hb : b = g
          · simp [phaseStep, hb] at hwf
          · simp only [phaseStep, if_neg hb] at hwf
            have h2 := ih hwf
            simp [hasStart, hasEnd, List.any_cons, isStartOf, isEndOf] at h2 ⊢
            exact h2
      | goStart h =>
          by_cases hg : h = g
          · simp [phaseStep, hg] at hwf
          · simp only [phaseStep, if_neg hg] at hwf
            have h2 := ih hwf
            simp [hasStart, hasEnd, List.any_cons, isStartOf, isEndOf, hg] at h2 ⊢
            exact h2
      | goEnd h =>
          by_cases hg : h = g
          · simp [phaseStep, hg] at hwf
          · simp only [phaseStep, if_neg hg] at hwf
            have h2 := ih hwf
            simp [hasStart, hasEnd, List.any_cons, isStartOf, isEndOf, hg] at h2 ⊢
            exact h2
      | other =>
          simp only [phaseStep] at hwf
          have h2 := ih hwf
          simp [hasStart, hasEnd, List.any_cons, isStartOf, isEndOf] at h2 ⊢
          exact h2

theorem fold_statusOf (g : Nat) :
    ∀ (evs : List Event) (p : Phase) (m : GoMap) (es : List Edge),
      wfAux g p evs = true →
      (p = .P0 ∨ (statusOf m g).isSome = true) →
      statusOf (List.foldl stepEvent (m, es) evs).1 g
        = finalStateTarget g evs (statusOf m g) := by
  intro evs
  induction evs with
  | nil =>
      intro p m es _ _
      cases hm : statusOf m g <;>
        simp [finalStateTarget, hasEnd, hasStart, hm]
  | cons ev rest ih =>
      intro p m es hwf hside
      simp only [wfAux] at hwf
      have hfold : List.foldl stepEvent (m, es) (ev :: rest)
          = List.foldl stepEvent
              ((stepEvent (m, es) ev).1, (stepEvent (m, es) ev).2) rest := rfl
      rw [hfold]
      cases ev with
      | goCreate a b =>
          by_cases hb : b = g
          · rw [hb]
            simp only [phaseStep, if_pos hb] at hwf
            cases p with
            | P0 =>
                simp only [] at hwf
                have hst := statusOf_step_create m es a g g (Or.inr rfl)
                have hih := ih .P1 (stepEvent (m, es) (.goCreate a g)).1
                  (stepEvent (m, es) (.goCreate a g)).2 hwf
                  (Or.inr (by rw [hst]; rfl))
                rw [hst] at hih
                rw [hih]
                cases hm : statusOf m g with
                | some s =>
                    simp [finalStateTarget, hasEnd, hasStart, List.any_cons,
                      isEndOf, isStartOf, hm]
                | none =>
                    simp [finalStateTarget, hasEnd, hasStart, List.any_cons,
                      isEndOf, isStartOf, mentionsCreate, hm]
            | P1 => simp at hwf
            | P2 => simp at hwf
            | P3 => simp at hwf
          · simp only [phaseStep, if_neg hb] at hwf
            by_cases ha : a = g
            · have hst := statusOf_step_create m es a b g (Or.inl ha)
              have hih := ih p (stepEvent (m, es) (.goCreate a b)).1
                (stepEvent (m, es) (.goCreate a b)).2 hwf
                (Or.inr (by rw [hst]; rfl))
              rw [hst] at hih
              rw [hih]
              cases hm : statusOf m g with
              | some s =>
                  simp [finalStateTarget, hasEnd, hasStart, List.any_cons,
                    isEndOf, isStartOf, hm]
              | none =>
                  simp [finalStateTarget, hasEnd, hasStart, List.any_cons,
                    isEndOf, isStartOf, mentionsCreate, hm, ha]
            · have hst : lookupG (stepEvent (m, es) (.goCreate a b)).1 g
                  = lookupG m g :=
                lookupG_step_create_ne m es a b g ha hb
              have hstat : statusOf (stepEvent (m, es) (.goCreate a b)).1 g
                  = statusOf m g := by
                simp only [statusOf, hst]
              have hih := ih p (stepEvent (m, es) (.goCreate a b)).1
                (stepEvent (m, es) (.goCreate a b)).2 hwf
                (by rcases hside with hside | hside
                    · exact Or.inl hside
                    · exact Or.inr (by rw [hstat]; exact hside))
              rw [hstat] at hih
              rw [hih]
              cases hm : statusOf m g with
              | some s =>
                  simp [finalStateTarget, hasEnd, hasStart, List.any_cons,
                    isEndOf, isStartOf, hm]
              | none =>
                  simp [finalStateTarget, hasEnd, hasStart, List.any_cons,
                    isEndOf, isStartOf, mentionsCreate, hm, ha, hb]
      | goStart h =>
          by_cases hg : h = g
          · rw [hg]
            simp only [phaseStep, if_pos hg] at hwf
            cases p with
            | P0 => simp at hwf
            | P1 =>
                simp only [] at hwf
                have hs0 : (statusOf m g).isSome = true := by
                  rcases hside with hside | hside
                  · cases hside
                  · exact hside
                have hl : (lookupG m g).isSome = true := by
                  simpa [statusOf] using hs0
                have hst := statusOf_step_start_self m es g hl
                have hih := ih .P2 (stepEvent (m, es) (.goStart g)).1
                  (stepEvent (m, es) (.goStart g)).2 hwf
                  (Or.inr (by rw [hst]; rfl))
                rw [hst] at hih
                rw [hih]
                by_cases hE : hasEnd g rest = true <;>
                by_cases hS : hasStart g rest = true <;>
                  simp [finalStateTarget, hasEnd, hasStart, List.any_cons,
                    isEndOf, isStartOf, hE, hS]
            | P2 => simp at hwf
            | P3 => simp at hwf
          · simp only [phaseStep, if_neg hg] at hwf
            have hst : lookupG (stepEvent (m, es) (.goStart h)).1 g
                = lookupG m g :=
              lookupG_step_start_ne m es h g hg
            have hstat : statusOf (stepEvent (m, es) (.goStart h)).1 g
                = statusOf m g := by
              simp only [statusOf, hst]
            have hih := ih p (stepEvent (m, es) (.goStart h)).1
              (stepEvent (m, es) (.goStart h)).2 hwf
              (by rcases hside with hside | hside
                  · exact Or.inl hside
                  · exact Or.inr (by rw [hstat]; exact hside))
            rw [hstat] at hih
            rw [hih]
            cases hm : statusOf m g with
            | some s =>
                simp [finalStateTarget, hasEnd, hasStart, List.any_cons,
                  isEndOf, isStartOf, hm, hg]
            | none =>
                simp [finalStateTarget, hasEnd, hasStart, List.any_cons,
                  isEndOf, isStartOf, mentionsCreate, hm, hg]
      | goEnd h =>
          by_cases hg : h = g
          · rw [hg]
            simp only [phaseStep, if_pos hg] at hwf
            cases p with
            | P0 => simp at hwf
            | P1 => simp at hwf
            | P2 =>
                simp only [] at hwf
                have hs0 : (statusOf m g).isSome = true := by
                  rcases hside with hside | hside
                  · cases hside
                  · exact hside
                have hl : (lookupG m g).isSome = true := by
                  simpa [statusOf] using hs0
                have hst := statusOf_step_end_self m es g hl
                have hih := ih .P3 (stepEvent (m, es) (.goEnd g)).1
                  (stepEvent (m, es) (.goEnd g)).2 hwf
                  (Or.inr (by rw [hst]; rfl))
                rw [hst] at hih
                rw [hih]
                have hno := wfAux_P3_no_lifecycle g rest hwf
                simp only [finalStateTarget]
                rw [hno.1, hno.2]
                simp [hasEnd, List.any_cons, isEndOf]
            | P3 => simp at hwf
          · simp only [phaseStep, if_neg hg] at hwf
            have hst : lookupG (stepEvent (m, es) (.goEnd h)).1 g
                = lookupG m g :=
              lookupG_step_end_ne m es h g hg
            have hstat : statusOf (stepEvent (m, es) (.goEnd h)).1 g
                = statusOf m g := by
              simp only [statusOf, hst]
            have hih := ih p (stepEvent (m, es) (.goEnd h)).1
              (stepEvent (m, es) (.goEnd h)).2 hwf
              (by rcases hside with hside | hside
                  · exact Or.inl hside
                  · exact Or.inr (by rw [hstat]; exact hside))
            rw [hstat] at hih
            rw [hih]
            cases hm : statusOf m g with
            | some s =>
                simp [finalStateTarget, hasEnd, hasStart, List.any_cons,
                  isEndOf, isStartOf, hm, hg]
            | none =>
                simp [finalStateTarget, hasEnd, hasStart, List.any_cons,
                  isEndOf, isStartOf, mentionsCreate, hm, hg]
      | other =>
          simp only [phaseStep] at hwf
          have hstat : statusOf (stepEvent (m, es) .other).1 g
              = statusOf m g := rfl
          have hih := ih p (stepEvent (m, es) .other).1
            (stepEvent (m, es) .other).2 hwf
            (by rcases hside with hside | hside
                · exact Or.inl hside
                · exact Or.inr hside)
          rw [hstat] at hih
          rw [hih]
          cases hm : statusOf m g with
          | some s =>
              simp [finalStateTarget, hasEnd, hasStart, List.any_cons,
                isEndOf, isStartOf, hm]
          | none =>
              simp [finalStateTarget, hasEnd, hasStart, List.any_cons,
                isEndOf, isStartOf, mentionsCreate, hm]

/-!
## Edge-closure invariant
-/

theorem step_create_endpoints (m : GoMap) (es : List Edge) (a b : Nat) :
    (lookupG (stepEvent (m, es) (.goCreate a b)).1 a).isSome = true ∧
    (lookupG (stepEvent (m, es) (.goCreate a b)).1 b).isSome = true := by
  rw [step_create_map]
  by_cases hla : (lookupG m a).isSome = true
  · rw [if_pos hla]
    by_cases hlb : (lookupG m b).isSome = true
    · rw [if_pos hlb]
      exact ⟨hla, hlb⟩
    · rw [if_neg hlb]
      constructor
      · exact lookupG_isSome_insertNew m b (newNode b) a hla
      · rw [lookupG_insertNew_self m b (newNode b)
          (Option.not_isSome_iff_eq_none.mp hlb)]
        rfl
  · rw [if_neg hla]
    have hsa : lookupG (insertNew m a (newNode a)) a = some (newNode a) :=
      lookupG_insertNew_self m a (newNode a)
        (Option.not_isSome_iff_eq_none.mp hla)
    by_cases hlb : (lookupG (insertNew m a (newNode a)) b).isSome = true
    · rw [if_pos hlb]
      exact ⟨by rw [hsa]; rfl, hlb⟩
    · rw [if_neg hlb]
      constructor
      · exact lookupG_isSome_insertNew _ b (newNode b) a (by rw [hsa]; rfl)
      · rw [lookupG_insertNew_self _ b (newNode b)
          (Option.not_isSome_iff_eq_none.mp hlb)]
        rfl

theorem step_edge_closed (m : GoMap) (es : List Edge) (ev : Event)
    (h : ∀ e ∈ es, (lookupG m e.from_).isSome = true ∧
      (lookupG m e.to_).isSome = true) :
    ∀ e ∈ (stepEvent (m, es) ev).2,
      (lookupG (stepEvent (m, es) ev).1 e.from_).isSome = true ∧
      (lookupG (stepEvent (m, es) ev).1 e.to_).isSome = true := by
  intro e he
  rw [step_edges] at he
  rcases List.mem_append.mp he with he | he
  · exact ⟨lookupG_isSome_step m es ev e.from_ (h e he).1,
      lookupG_isSome_step m es ev e.to_ (h e he).2⟩
  · cases ev with
    | goCreate a b =>
        simp [edgeOf] at he
        rw [he]
        exact step_create_endpoints m es a b
    | goStart x => simp [edgeOf] at he
    | goEnd x => simp [edgeOf] at he
    | other => simp [edgeOf] at he

theorem fold_edge_closed (evs : List Event) :
    ∀ (m : GoMap) (es : List Edge),
      (∀ e ∈ es, (lookupG m e.from_).isSome = true ∧
        (lookupG m e.to_).isSome = true) →
      ∀ e ∈ (List.foldl stepEvent (m, es) evs).2,
        (lookupG (List.foldl stepEvent (m, es) evs).1 e.from_).isSome = true ∧
        (lookupG (List.foldl stepEvent (m, es) evs).1 e.to_).isSome = true := by
  induction evs with
  | nil => intro m es h; exact h
  | cons ev rest ih =>
      intro m es h
      have hstep : List.foldl stepEvent (m, es) (ev :: rest)
          = List.foldl stepEvent
              ((stepEvent (m, es) ev).1, (stepEvent (m, es) ev).2) rest := rfl
      rw [hstep]
      exact ih _ _ (step_edge_closed m es ev h)

/-!
## Claim theorems
-/

theorem buildAcc_foldl (evs : List Event) :
    buildAcc evs = List.foldl stepEvent (initAcc.1, initAcc.2) evs := rfl

theorem root_isSome (evs : List Event) :
    (lookupG (buildAcc evs).1 1).isSome = true := by
  rw [buildAcc_foldl]
  exact fold_lookupG_isSome evs initAcc.1 initAcc.2 1 rfl

/-- Claim C1: every output graph contains a node with id 1; the root node
is seeded in state running before any event is processed, and on the empty
event sequence the output is exactly the root node and no edges. -/
theorem root_presence_C1 :
    (∀ evs : List Event, ∃ n, n ∈ (analyzeEvents evs).nodes ∧ n.id = 1) ∧
    lookupG initAcc.1 1 = some rootNode ∧
    rootNode.state = "running" ∧
    analyzeEvents [] = ⟨[rootNode], []⟩ := by
  refine ⟨?_, rfl, rfl, rfl⟩
  intro evs
  have h := root_isSome evs
  cases hl : lookupG (buildAcc evs).1 1 with
  | none => rw [hl] at h; cases h
  | some n =>
      exact ⟨n, mem_snd_of_lookupG _ 1 n hl,
        id_of_lookupG _ 1 n (mapInv_buildAcc evs).1 hl⟩

theorem length_filterMap_edgeOf (evs : List Event) :
    (evs.filterMap edgeOf).length = (evs.filter isCreate).length := by
  induction evs with
  | nil => rfl
  | cons ev rest ih => cases ev <;> simp [edgeOf, isCreate, ih]

/-- Claim C2: the output edge list is exactly one edge (creator, new) per
TaskCreate event, in event order and without deduplication, so its length
equals the number of TaskCreate events; no other event kind contributes. -/
theorem edge_count_C2 :
    ∀ evs : List Event,
      (analyzeEvents evs).edges = evs.filterMap edgeOf ∧
      (analyzeEvents evs).edges.length = (evs.filter isCreate).length := by
  intro evs
  have h : (analyzeEvents evs).edges = evs.filterMap edgeOf := by
    show (buildAcc evs).2 = _
    rw [buildAcc_foldl, fold_edges]
    rfl
  exact ⟨h, by rw [h, length_filterMap_edgeOf]⟩

/-- Claim C6: no node is synthesized from a start or end event alone:
every node id in the output graph is 1 or is named by some TaskCreate
event of the sequence (as creator or as new task). -/
theorem no_synthesis_C6 (evs : List Event) (n : Node)
    (hn : n ∈ (analyzeEvents evs).nodes) :
    n.id = 1 ∨ evs.any (mentionsCreate n.id) = true := by
  have hlook : lookupG (buildAcc evs).1 n.id = some n :=
    lookupG_of_mem_snd _ n (mapInv_buildAcc evs) hn
  have hkeys : n.id ∈ (buildAcc evs).1.map Prod.fst :=
    mem_keys_of_lookupG_isSome _ n.id (by rw [hlook]; rfl)
  rw [buildAcc_foldl] at hkeys
  rcases fold_keys_origin evs initAcc.1 initAcc.2 n.id hkeys with h | h
  · left
    simpa [initAcc] using h
  · right
    exact h

theorem no_synthesis_witness_C6 :
    (newNode 2).id = 1 ∨
      [Event.goCreate 1 2].any (mentionsCreate (newNode 2).id) = true :=
  no_synthesis_C6 [Event.goCreate 1 2] (newNode 2) (by decide)

/-- Claim C7: a TaskCreate event never changes an existing node: any node
present before the event is looked up unchanged afterwards, and a missing
creator or new-task node is inserted in state created. -/
theorem create_frame_C7 (m : GoMap) (es : List Edge) (a b : Nat) :
    (∀ g n, lookupG m g = some n →
        lookupG (stepEvent (m, es) (.goCreate a b)).1 g = some n) ∧
    (∀ g, lookupG m g = none → g = a ∨ g = b →
        ∃ n, lookupG (stepEvent (m, es) (.goCreate a b)).1 g = some n ∧
          n.state = "created") := by
  constructor
  · intro g n hg
    rw [step_create_map]
    by_cases hla : (lookupG m a).isSome = true
    · rw [if_pos hla]
      by_cases hlb : (lookupG m b).isSome = true
      · rw [if_pos hlb]; exact hg
      · rw [if_neg hlb]
        exact lookupG_insertNew_of_some m b (newNode b) g n hg
    · rw [if_neg hla]
      have h1 := lookupG_insertNew_of_some m a (newNode a) g n hg
      by_cases hlb : (lookupG (insertNew m a (newNode a)) b).isSome = true
      · rw [if_pos hlb]; exact h1
      · rw [if_neg hlb]
        exact lookupG_insertNew_of_some _ b (newNode b) g n h1
  · intro g hg hor
    have hst := statusOf_step_create m es a b g
      (hor.imp (fun h => h.symm) (fun h => h.symm))
    rw [show statusOf m g = none from by simp [statusOf, hg]] at hst
    cases hl : lookupG (stepEvent (m, es) (.goCreate a b)).1 g with
    | none => simp [statusOf, hl] at hst
    | some n =>
        simp only [statusOf, hl, Option.map_some', Option.getD_none] at hst
        injection hst with hst
        exact ⟨n, rfl, hst⟩

theorem create_frame_witness_C7 :
    (lookupG (stepEvent ([(1, rootNode)], []) (.goCreate 1 2)).1 1
      = some rootNode) ∧
    (∃ n, lookupG (stepEvent ([(1, rootNode)], []) (.goCreate 1 2)).1 2
      = some n ∧ n.state = "created") :=
  ⟨(create_frame_C7 [(1, rootNode)] [] 1 2).1 1 rootNode rfl,
   (create_frame_C7 [(1, rootNode)] [] 1 2).2 2 rfl (Or.inr rfl)⟩

/-- Claim C8: on the scenario sequence TaskCreate(1,2), TaskStart(2),
TaskCreate(2,3), TaskEnd(2), the fold yields exactly the three nodes
1 running, 2 finished, 3 created, and the edge list (1,2), (2,3) in this
order. -/
theorem scenario_C8 :
    (analyzeEvents [.goCreate 1 2, .goStart 2, .goCreate 2 3, .goEnd 2]).nodes.map
        (fun n => (n.id, n.state))
      = [(1, "running"), (2, "finished"), (3, "created")] ∧
    (analyzeEvents [.goCreate 1 2, .goStart 2, .goCreate 2 3, .goEnd 2]).edges
      = [⟨1, 2⟩, ⟨2, 3⟩] := by
  decide

/-- Claim C9: the fold is deterministic up to node ordering: any two
graphs that are possible outputs for the same event sequence agree as
sets of (id, state) pairs and have identical edge lists. -/
theorem refold_deterministic_C9 (evs : List Event) (g1 g2 : Graph)
    (h1 : IsGraphOutput evs g1) (h2 : IsGraphOutput evs g2) :
    (∀ p : Nat × String,
        p ∈ g1.nodes.map (fun n => (n.id, n.state)) ↔
        p ∈ g2.nodes.map (fun n => (n.id, n.state))) ∧
    g1.edges = g2.edges := by
  have hp : g1.nodes.Perm g2.nodes := h1.1.trans h2.1.symm
  exact ⟨fun p => (hp.map (fun n => (n.id, n.state))).mem_iff,
    h1.2.trans (h2.2.symm)⟩

theorem refold_deterministic_witness_C9 :
    (∀ p : Nat × String,
        p ∈ (Graph.mk [rootNode, newNode 2] [⟨1, 2⟩]).nodes.map
          (fun n => (n.id, n.state)) ↔
        p ∈ (Graph.mk [newNode 2, rootNode] [⟨1, 2⟩]).nodes.map
          (fun n => (n.id, n.state))) ∧
    (Graph.mk [rootNode, newNode 2] [⟨1, 2⟩]).edges
      = (Graph.mk [newNode 2, rootNode] [⟨1, 2⟩]).edges :=
  refold_deterministic_C9 [.goCreate 1 2] _ _
    ⟨by decide, by decide⟩ ⟨by decide, by decide⟩

/-- Claim C10: the output graph is edge-closed: both endpoints of every
output edge are ids of nodes present in the output node list. -/
theorem edge_closed_C10 (evs : List Event) (e : Edge)
    (he : e ∈ (analyzeEvents evs).edges) :
    (∃ n, n ∈ (analyzeEvents evs).nodes ∧ n.id = e.from_) ∧
    (∃ n, n ∈ (analyzeEvents evs).nodes ∧ n.id = e.to_) := by
  have he2 : e ∈ (List.foldl stepEvent (initAcc.1, initAcc.2) evs).2 := by
    rw [← buildAcc_foldl]
    exact he
  have h := fold_edge_closed evs initAcc.1 initAcc.2
    (by intro e he; cases he) e he2
  rw [← buildAcc_foldl] at h
  constructor
  · cases hf : lookupG (buildAcc evs).1 e.from_ with
    | none => rw [hf] at h; cases h.1
    | some n =>
        exact ⟨n, mem_snd_of_lookupG _ _ n hf,
          id_of_lookupG _ _ n (mapInv_buildAcc evs).1 hf⟩
  · cases ht : lookupG (buildAcc evs).1 e.to_ with
    | none => rw [ht] at h; cases h.2
    | some n =>
        exact ⟨n, mem_snd_of_lookupG _ _ n ht,
          id_of_lookupG _ _ n (mapInv_buildAcc evs).1 ht⟩

theorem edge_closed_witness_C10 :
    (∃ n, n ∈ (analyzeEvents [.goCreate 1 2]).nodes ∧
      n.id = (Edge.mk 1 2).from_) ∧
    (∃ n, n ∈ (analyzeEvents [.goCreate 1 2]).nodes ∧
      n.id = (Edge.mk 1 2).to_) :=
  edge_closed_C10 [.goCreate 1 2] ⟨1, 2⟩ (by decide)

/-- Claim C3 as stated is false at task id 1 on the empty event sequence:
the sequence is well-formed for id 1 and contains neither a TaskStart nor
a TaskEnd for it, so the claim predicts state created, but the root node
is seeded and output in state running. -/
theorem state_monotonic_counterexample_C3 :
    wellFormedFor 1 [] = true ∧
    hasEnd 1 [] = false ∧
    hasStart 1 [] = false ∧
    (∃ n, n ∈ (analyzeEvents []).nodes ∧ n.id = 1) ∧
    (∀ n, n ∈ (analyzeEvents []).nodes → n.id = 1 → n.state = "running") ∧
    ("running" : String) ≠ "created" := by
  decide

/-- Claim C3, amended: under input well-formed for a task id, the final
state of that task's node is finished if a TaskEnd occurred, else running
if a TaskStart occurred, else created — except that the node with id 1 is
seeded running, so in the no-start no-end case its state is running. -/
theorem state_monotonic_amended_C3 (g : Nat) (evs : List Event) (n : Node)
    (hwf : wellFormedFor g evs = true)
    (hn : n ∈ (analyzeEvents evs).nodes) (hid : n.id = g) :
    n.state = if hasEnd g evs then "finished"
              else if hasStart g evs then "running"
              else if g = 1 then "running" else "created" := by
  have hlook : lookupG (buildAcc evs).1 n.id = some n :=
    lookupG_of_mem_snd _ n (mapInv_buildAcc evs) hn
  rw [hid] at hlook
  have hstat : statusOf (buildAcc evs).1 g = some n.state := by
    simp [statusOf, hlook]
  have hfold := fold_statusOf g evs .P0 initAcc.1 initAcc.2 hwf (Or.inl rfl)
  rw [← buildAcc_foldl, hstat] at hfold
  have hinit : statusOf initAcc.1 g
      = if g = 1 then some "running" else none := by
    by_cases h1 : g = 1
    · rw [h1]
      rfl
    · have h1' : ¬ (1 = g) := fun hc => h1 hc.symm
      simp [initAcc, statusOf, lookupG, h1', h1]
  rw [hinit] at hfold
  simp only [finalStateTarget] at hfold
  by_cases hE : hasEnd g evs = true
  · rw [if_pos hE] at hfold
    rw [if_pos hE]
    injection hfold
  · rw [if_neg hE] at hfold
    rw [if_neg hE]
    by_cases hS : hasStart g evs = true
    · rw [if_pos hS] at hfold
      rw [if_pos hS]
      injection hfold
    · rw [if_neg hS] at hfold
      rw [if_neg hS]
      by_cases h1 : g = 1
      · rw [if_pos h1] at hfold
        rw [if_pos h1]
        have hfold2 : some n.state = some "running" := hfold
        injection hfold2
      · rw [if_neg h1] at hfold
        rw [if_neg h1]
        have hfold2 : some n.state
            = if evs.any (mentionsCreate g) = true then some "created"
              else none := hfold
        by_cases hM : evs.any (mentionsCreate g) = true
        · rw [if_pos hM] at hfold2
          injection hfold2
        · rw [if_neg hM] at hfold2
          cases hfold2

theorem state_monotonic_amended_witness_C3 :
    wellFormedFor 2 [Event.goCreate 1 2, Event.goStart 2] = true ∧
    (⟨2, "goroutine 2", "goroutine", "running"⟩ : Node)
      ∈ (analyzeEvents [Event.goCreate 1 2, Event.goStart 2]).nodes ∧
    (⟨2, "goroutine 2", "goroutine", "running"⟩ : Node).state
      = if hasEnd 2 [Event.goCreate 1 2, Event.goStart 2] then "finished"
        else if hasStart 2 [Event.goCreate 1 2, Event.goStart 2] then "running"
        else if 2 = 1 then "running" else "created" :=
  ⟨by decide, by decide,
   state_monotonic_amended_C3 2 [Event.goCreate 1 2, Event.goStart 2]
     ⟨2, "goroutine 2", "goroutine", "running"⟩
     (by decide) (by decide) (by decide)⟩

/-- Claim C4: if the subprocess exceeds the deadline, the handler writes
the timeout response — regardless of every later outcome, including
whether the trace artifact exists — and never stats, opens or parses the
trace artifact. -/
theorem timeout_precedence_C4 (w : World) (c : String)
    (hrb : w.readBody = .ok c) (hwr : w.writeFileOk = true)
    (hto : w.timedOut = true) :
    (traceHandlerRun w).1 = .timeout ∧
    Effect.statTrace ∉ (traceHandlerRun w).2 ∧
    Effect.openTrace ∉ (traceHandlerRun w).2 ∧
    Effect.parseTrace ∉ (traceHandlerRun w).2 := by
  simp [traceHandlerRun, hrb, hwr, hto]

theorem timeout_precedence_witness_C4 :
    (traceHandlerRun
        ⟨.ok "package main", .ok "gtrace1", true, "", true, true,
          .ok (), .ok []⟩).1 = .timeout ∧
    Effect.statTrace ∉ (traceHandlerRun
        ⟨.ok "package main", .ok "gtrace1", true, "", true, true,
          .ok (), .ok []⟩).2 ∧
    Effect.openTrace ∉ (traceHandlerRun
        ⟨.ok "package main", .ok "gtrace1", true, "", true, true,
          .ok (), .ok []⟩).2 ∧
    Effect.parseTrace ∉ (traceHandlerRun
        ⟨.ok "package main", .ok "gtrace1", true, "", true, true,
          .ok (), .ok []⟩).2 :=
  timeout_precedence_C4
    ⟨.ok "package main", .ok "gtrace1", true, "", true, true, .ok (), .ok []⟩
    "package main" rfl rfl rfl

/-- Claim C5 as stated is false: when allocating the working directory
fails, the handler does not fail with a fatal I/O error — the code
discards the `ioutil.TempDir` error, so it proceeds to run the program
(in the empty directory path) and here reports a missing artifact rather
than a setup failure. -/
theorem sandbox_setup_counterexample_C5 :
    (traceHandlerRun
        ⟨.ok "x", .error "tempdir failed", true, "out", false, false,
          .ok (), .ok []⟩).1 = .traceMissing "out" ∧
    Effect.runCmd "" ∈ (traceHandlerRun
        ⟨.ok "x", .error "tempdir failed", true, "out", false, false,
          .ok (), .ok []⟩).2 := by
  decide

/-- Claim C5, amended: a failure to write the source file is fatal and
surfaced immediately — the program is never run and the artifact never
checked — but a directory-allocation failure is silently ignored (its
error is discarded) and the handler proceeds to run the program with an
empty directory path. -/
theorem sandbox_setup_amended_C5 :
    (∀ (w : World) (c : String), w.readBody = .ok c → w.writeFileOk = false →
      (traceHandlerRun w).1 = .writeError ∧
      (∀ d, Effect.runCmd d ∉ (traceHandlerRun w).2) ∧
      Effect.statTrace ∉ (traceHandlerRun w).2) ∧
    (∀ (w : World) (c e : String), w.readBody = .ok c →
      w.tempDir = .error e → w.writeFileOk = true →
      Effect.runCmd "" ∈ (traceHandlerRun w).2) := by
  constructor
  · intro w c hrb hwr
    simp [traceHandlerRun, hrb, hwr]
  · intro w c e hrb htd hwr
    simp only [traceHandlerRun, hrb, htd, hwr]
    by_cases hto : w.timedOut = true
    · simp [hto]
    · simp only [hto]
      by_cases htr : w.traceExists = false
      · simp [htr]
      · simp only [htr]
        rcases hA : analyzeTraceRun w with ⟨r, effs⟩
        cases r <;> simp [hA]

theorem sandbox_setup_amended_witness_C5 :
    ((traceHandlerRun
        ⟨.ok "x", .ok "d", false, "", false, false, .ok (), .ok []⟩).1
      = .writeError ∧
     (∀ d, Effect.runCmd d ∉ (traceHandlerRun
        ⟨.ok "x", .ok "d", false, "", false, false, .ok (), .ok []⟩).2) ∧
     Effect.statTrace ∉ (traceHandlerRun
        ⟨.ok "x", .ok "d", false, "", false, false, .ok (), .ok []⟩).2) ∧
    Effect.runCmd "" ∈ (traceHandlerRun
        ⟨.ok "x", .error "e", true, "", false, false, .ok (), .ok []⟩).2 :=
  ⟨sandbox_setup_amended_C5.1
     ⟨.ok "x", .ok "d", false, "", false, false, .ok (), .ok []⟩ "x" rfl rfl,
   sandbox_setup_amended_C5.2
     ⟨.ok "x", .error "e", true, "", false, false, .ok (), .ok []⟩
     "x" "e" rfl rfl rfl⟩

end Backend
